import Mathlib

/-
Verification of the concurrency benchmark harness (ikonst/go-concurrency-perf,
src/main.go). The embedding models:
  * `doWork` / `doCpuWork` / `doNetworkWork` (src/main.go:21-53): one simulated
    request as the ordered list of phases it performs, with Go's truncating
    integer division on `time.Duration` (int64 nanoseconds) and its
    divide-by-zero panic modelled as `Option.none`;
  * the result-collection loop of `runBenchmark` (src/main.go:105-115): the
    longest-request fold over completion order;
  * the metric formulas of `runBenchmark` (src/main.go:117-133);
  * `BenchmarkResult.ResponseTimesPercentile` (src/main.go:67-70) together with
    the `Percentile` and `Mean` routines of its dependency
    github.com/montanaflynn/stats, over ℚ (idealising float64 rounding);
  * the weighted semaphore used as concurrency limiter (golang.org/x/sync),
    modelled from the spec as a guarded counter since its source is external.
Durations are `Int` nanoseconds; the program's values stay far below 2^63, so
int64 wrap-around is not modelled.
-/

/-- One recorded phase of a simulated request: a busy-CPU slice or a blocking
network slice, carrying its commanded duration in nanoseconds. `doCpuWork` and
`doNetworkWork` (src/main.go:21-43) each append one start line and one end line
for their phase to the trace, so the trace lists exactly these phases in
execution order. -/
inductive Phase where
  | cpu (d : Int)
  | network (d : Int)
deriving DecidableEq

/-- Go integer division on `time.Duration` (int64): truncates toward zero and
panics on a zero divisor, modelled as `none`. -/
def goDiv (a b : Int) : Option Int :=
  if b = 0 then none else some (a.tdiv b)

/-- The loop of `doWork` (src/main.go:48-51): each of the `n` remaining
iterations performs one network slice of `networkTime/splits` and then one CPU
slice of `workTime/(splits+1)`, recomputing both divisions every iteration as
the Go code does. -/
def doWorkLoop (workTime networkTime splits : Int) : Nat → Option (List Phase)
  | 0 => some []
  | n + 1 =>
    (goDiv networkTime splits).bind fun netSlice =>
    (goDiv workTime (splits + 1)).bind fun cpuSlice =>
    (doWorkLoop workTime networkTime splits n).bind fun rest =>
    some (Phase.network netSlice :: Phase.cpu cpuSlice :: rest)

/-- Embeds `doWork` (src/main.go:45-53): one initial CPU slice of
`workTime/(splits+1)`, then `splits` iterations of network slice followed by
CPU slice. The Go loop `for i := 0; i < splits; i++` runs `splits.toNat`
times. The result is the ordered phase list of the request (its trace order);
`none` models the divide-by-zero runtime panic. -/
def doWork (workTime networkTime splits : Int) : Option (List Phase) :=
  (goDiv workTime (splits + 1)).bind fun firstSlice =>
  (doWorkLoop workTime networkTime splits splits.toNat).bind fun rest =>
  some (Phase.cpu firstSlice :: rest)

/-- Total commanded busy-CPU time of a phase list. -/
def cpuTotal (l : List Phase) : Int :=
  (l.map fun p => match p with | Phase.cpu d => d | Phase.network _ => 0).sum

/-- Total commanded network (blocking) time of a phase list. -/
def netTotal (l : List Phase) : Int :=
  (l.map fun p => match p with | Phase.cpu _ => 0 | Phase.network d => d).sum

/-- The phase list `doWork` produces for `splits = s ≥ 0`: one CPU slice, then
`s` repetitions of (network slice, CPU slice). -/
def workPhases (workTime networkTime : Int) (s : Nat) : List Phase :=
  Phase.cpu (workTime.tdiv (s + 1)) ::
    (List.replicate s
      [Phase.network (networkTime.tdiv s), Phase.cpu (workTime.tdiv (s + 1))]).flatten

/-- Embeds `WorkResult` (src/main.go:16-19): per-request elapsed time (`timeTaken`,
nanoseconds) and trace (`output`). -/
structure WorkResult where
  timeTaken : Int
  output : String
deriving DecidableEq

/-- The longest-request tracking of the collection loop
(src/main.go:106-110): fold over the results in completion order, starting
from the zero-valued `WorkResult` and replacing the current best exactly when
the new result's `timeTaken` is strictly greater. -/
def collectLongest (results : List WorkResult) : WorkResult :=
  results.foldl (fun best r => if best.timeTaken < r.timeTaken then r else best)
    ⟨0, ""⟩

/-- The latency collection of the loop (src/main.go:111):
`float64(result.timeTaken)/float64(time.Millisecond)`, in completion order. -/
def collectResponseTimesMs (results : List WorkResult) : List ℚ :=
  results.map fun r => (r.timeTaken : ℚ) / 1000000

/-- Embeds `BenchmarkResult` (src/main.go:55-65), with float64 fields idealised
over ℚ. -/
structure BenchmarkResultL where
  workTime : Int
  networkTime : Int
  iterations : Nat
  numCoroutines : Int
  throughputRps : ℚ
  speedup : ℚ
  cpuUtilization : ℚ
  responseTimesMs : List ℚ
  longestRequest : String

/-- Embeds `time.Duration.Seconds()`: nanoseconds over 1e9. -/
def durationSeconds (d : Int) : ℚ := (d : ℚ) / 1000000000

/-- The metric derivation and result assembly of `runBenchmark`
(src/main.go:117-133), as a pure function of the measured wall durations and
the collected results: `baselineRps = baselineIterations / baselineDuration`,
`resultRps = iterations / totalDuration`, `maxRps = 1 / workTime` (all in
seconds), fields filled exactly as in the Go struct literal. -/
def mkBenchmarkResult (workTime networkTime numGreenThreads : Int)
    (iterations baselineIterations : Nat) (baselineDuration totalDuration : Int)
    (results : List WorkResult) : BenchmarkResultL :=
  let baselineRps : ℚ := (baselineIterations : ℚ) / durationSeconds baselineDuration
  let resultRps : ℚ := (iterations : ℚ) / durationSeconds totalDuration
  let maxRps : ℚ := 1 / durationSeconds workTime
  { workTime := workTime
    networkTime := networkTime
    iterations := iterations
    numCoroutines := numGreenThreads
    throughputRps := resultRps
    speedup := resultRps / baselineRps
    cpuUtilization := resultRps * 100 / maxRps
    responseTimesMs := collectResponseTimesMs results
    longestRequest := (collectLongest results).output }

/-- Error values of the stats library relevant to the percentile path:
`EmptyInputErr` (the spec's `InsufficientData`), `BoundsErr`, `NaNErr`. -/
inductive StatsErr where
  | emptyInput
  | bounds
  | nanResult
deriving DecidableEq

/-- The Go pair `(float64, error)` returned by `stats.Percentile`: `val = none`
models the `math.NaN()` float accompanying every error return. -/
structure StatsValue where
  val : Option ℚ
  err : Option StatsErr
deriving DecidableEq

/-- Embeds `sortedCopy` of the stats library: the input sorted ascending (the sorting
algorithm is irrelevant to the value, so insertion sort stands in for
`sort.Float64s`). -/
def sortedCopy (l : List ℚ) : List ℚ := List.insertionSort (· ≤ ·) l

/-- Floor of a rational as executable arithmetic (`⌊q⌋`, see
`ratFloor_eq_floor`). -/
def ratFloor (q : ℚ) : Int := q.num / (q.den : Int)

/-- Ceiling of a rational as executable arithmetic (`⌈q⌉`, see
`ratCeil_eq_ceil`). -/
def ratCeil (q : ℚ) : Int := -ratFloor (-q)

/-- The value computed by `stats.Mean`: sum over length. On the percentile
path it is applied only to the two-element slice `c[i-1 : i+1]`, so the
empty-input error path of `Mean` (whose error the caller discards anyway) is
never reached. -/
def statsMeanVal (l : List ℚ) : ℚ := l.sum / l.length

/-- Embeds `stats.Percentile` of github.com/montanaflynn/stats, the dependency called
by `ResponseTimesPercentile` (src/main.go:68); its source lives outside this
repository. Algorithm: empty input errors; a single element is returned
directly; `percent ≤ 0` or `percent > 100` errors; otherwise with
`index = percent/100 * len`, a whole `index` selects `sorted[index-1]`, a
non-whole `index > 1` averages `sorted[i-1]` and `sorted[i]` for
`i = int(index)`, and anything else (`0 < index < 1` non-whole) errors with
`NaNErr`. Go's `int64(index)`/`int(index)` truncate toward zero, which equals
the floor here since `index > 0` on every branch that truncates. -/
def statsPercentile (input : List ℚ) (percent : ℚ) : StatsValue :=
  if input.length = 0 then ⟨none, some StatsErr.emptyInput⟩
  else if input.length = 1 then ⟨some (input.headD 0), none⟩
  else if percent ≤ 0 ∨ 100 < percent then ⟨none, some StatsErr.bounds⟩
  else
    let c := sortedCopy input
    let index : ℚ := percent / 100 * (c.length : ℚ)
    if index = (ratFloor index : ℚ) then
      ⟨some (c.getD ((ratFloor index).toNat - 1) 0), none⟩
    else if 1 < index then
      ⟨some (statsMeanVal ((c.drop ((ratFloor index).toNat - 1)).take 2)), none⟩
    else ⟨none, some StatsErr.nanResult⟩

/-- Embeds `BenchmarkResult.ResponseTimesPercentile` (src/main.go:67-70):
`val, _ := stats.Percentile(b.ResponseTimesMs, pct); return val` — the error
is discarded and the float value (NaN, i.e. `none`, on error paths) is
returned. -/
def responseTimesPercentile (b : BenchmarkResultL) (pct : ℚ) : Option ℚ :=
  (statsPercentile b.responseTimesMs pct).val

/-- The percentile the SPEC describes, written from the spec's words for
comparison with the code's `statsPercentile`: linear-interpolation percentile
with `rank = p/100 × (n−1)` over the values sorted ascending, interpolating
between the two nearest ranked values. -/
def specLinearPercentile (l : List ℚ) (p : ℚ) : Option ℚ :=
  if l.length = 0 then none
  else
    let c := sortedCopy l
    let rank : ℚ := p / 100 * ((l.length : ℚ) - 1)
    let lo := c.getD (ratFloor rank).toNat 0
    let hi := c.getD (ratCeil rank).toNat 0
    some (lo + (rank - (ratFloor rank : ℚ)) * (hi - lo))

/-- A concrete `BenchmarkResult` with latencies `[1ms, 2ms]`. -/
def sampleResult : BenchmarkResultL :=
  ⟨5000000, 55000000, 2, 1, 0, 0, 0, [1, 2], ""⟩

/-- A concrete `BenchmarkResult` with zero collected latencies. -/
def emptyResult : BenchmarkResultL :=
  ⟨5000000, 55000000, 0, 1, 0, 0, 0, [], ""⟩

/-- An admission-control event of the benchmark run: one `sem.Acquire(ctx, 1)`
call returning (src/main.go:90) or one `sem.Release(1)` call (src/main.go:101). -/
inductive LimiterEvent where
  | acquire
  | release
deriving DecidableEq

/-- Modelled from the spec: the ConcurrencyLimiter of `runBenchmark`
(src/main.go:86-103) is `semaphore.NewWeighted(numGreenThreads)` from
golang.org/x/sync, whose source is external to this repository. Per spec §4.2,
`acquire` blocks (suspends, does not complete) until fewer than
`concurrencyLimit` permits are outstanding, and `release` returns a held
permit. The state is the count of outstanding permits: an acquire event can
only complete when the count is strictly below the limit (`none` = the call
is still blocked and no event happens), and a release decrements (`none` =
releasing with no permit held, which the Go semaphore treats as a panic and
which the program never does). -/
def limiterStep (limit outstanding : Nat) : LimiterEvent → Option Nat
  | LimiterEvent.acquire =>
      if outstanding < limit then some (outstanding + 1) else none
  | LimiterEvent.release =>
      if 0 < outstanding then some (outstanding - 1) else none

/-- Run a sequence of completed limiter events from a starting count of
outstanding permits. -/
def limiterRun (limit : Nat) : List LimiterEvent → Nat → Option Nat
  | [], s => some s
  | e :: es, s => (limiterStep limit s e).bind (limiterRun limit es)

theorem doWorkLoop_eq (w nt : Int) (s : Nat) (hs : s ≠ 0) (n : Nat) :
    doWorkLoop w nt s n =
      some ((List.replicate n
        [Phase.network (nt.tdiv s), Phase.cpu (w.tdiv (s + 1))]).flatten) := by
  induction n with
  | zero => simp [doWorkLoop]
  | succ n ih =>
    have h1 : (s : Int) ≠ 0 := by exact_mod_cast hs
    have h2 : (s : Int) + 1 ≠ 0 := by positivity
    simp [doWorkLoop, goDiv, h1, h2, ih, List.replicate_succ]

theorem doWork_natCast (w nt : Int) (s : Nat) :
    doWork w nt s = some (workPhases w nt s) := by
  cases s with
  | zero =>
    simp [doWork, doWorkLoop, goDiv, workPhases]
  | succ n =>
    have h2 : ((n : Int) + 1 + 1) ≠ 0 := by positivity
    have h3 := doWorkLoop_eq w nt (n + 1) (Nat.succ_ne_zero n)
    push_cast at h3
    simp [doWork, goDiv, h2, h3, workPhases]

theorem workPhases_length (w nt : Int) (s : Nat) :
    (workPhases w nt s).length = 2 * s + 1 := by
  simp [workPhases]
  omega

theorem getD_alternating (a c : Phase) (n : Nat) :
    ∀ i, i < 2 * n + 1 →
      (c :: (List.replicate n [a, c]).flatten).getD i (Phase.cpu 0) =
        if i % 2 = 0 then c else a := by
  induction n with
  | zero =>
    intro i hi
    interval_cases i
    simp
  | succ n ih =>
    intro i hi
    match i with
    | 0 => simp
    | 1 => simp [List.replicate_succ]
    | k + 2 =>
      have hk : k < 2 * n + 1 := by omega
      have hmod : (k + 2) % 2 = k % 2 := by omega
      have hstep :
          ((c :: (List.replicate (n + 1) [a, c]).flatten).getD (k + 2) (Phase.cpu 0)) =
            (c :: (List.replicate n [a, c]).flatten).getD k (Phase.cpu 0) := by
        simp [List.replicate_succ, List.getD_cons_succ]
      rw [hstep, hmod]
      exact ih k hk

theorem cpuTotal_flatten_replicate (x y : Int) (n : Nat) :
    cpuTotal ((List.replicate n [Phase.network x, Phase.cpu y]).flatten) = n * y := by
  induction n with
  | zero => simp [cpuTotal]
  | succ n ih =>
    simp [List.replicate_succ, cpuTotal] at ih ⊢
    ring

theorem netTotal_flatten_replicate (x y : Int) (n : Nat) :
    netTotal ((List.replicate n [Phase.network x, Phase.cpu y]).flatten) = n * x := by
  induction n with
  | zero => simp [netTotal]
  | succ n ih =>
    simp [List.replicate_succ, netTotal] at ih ⊢
    ring

/-- C2: for `splits = s ≥ 1`, one simulated request performs exactly `2s+1`
phases in strict alternation starting and ending with a CPU slice — `s+1` CPU
slices of `cpuTime/(s+1)` each interleaved with `s` network slices of
`networkTime/s` each — and the trace records these phases in that order (the
even positions 0, 2, …, 2s are the CPU slices, the odd positions the network
slices). -/
theorem doWork_alternating_phases (w nt : Int) (s : Nat) (hs : 1 ≤ s) :
    doWork w nt (s : Int) = some (workPhases w nt s) ∧
    (workPhases w nt s).length = 2 * s + 1 ∧
    ∀ i, i < 2 * s + 1 →
      (workPhases w nt s).getD i (Phase.cpu 0) =
        if i % 2 = 0 then Phase.cpu (w.tdiv ((s : Int) + 1))
        else Phase.network (nt.tdiv (s : Int)) := by
  refine ⟨doWork_natCast w nt s, workPhases_length w nt s, ?_⟩
  intro i hi
  exact getD_alternating (Phase.network (nt.tdiv (s : Int)))
    (Phase.cpu (w.tdiv ((s : Int) + 1))) s i hi

theorem doWork_alternating_phases_witness :
    doWork 10 9 ((2 : Nat) : Int) = some (workPhases 10 9 2) ∧
    (workPhases 10 9 2).length = 2 * 2 + 1 ∧
    ∀ i, i < 2 * 2 + 1 →
      (workPhases 10 9 2).getD i (Phase.cpu 0) =
        if i % 2 = 0 then Phase.cpu ((10 : Int).tdiv (((2 : Nat) : Int) + 1))
        else Phase.network ((9 : Int).tdiv ((2 : Nat) : Int)) :=
  doWork_alternating_phases 10 9 2 (by decide)

/-- C9: for `splits = 0` one simulated request performs exactly one CPU phase
of the full `cpuTime` duration and no network phase; the division
`networkTime/splits` is never evaluated (the loop body is not entered), so no
division-by-zero panic occurs — even though that division would be a panic
(`none`) had it been evaluated. -/
theorem doWork_zero_splits (w nt : Int) :
    doWork w nt 0 = some [Phase.cpu w] ∧ goDiv nt 0 = none := by
  constructor
  · simp [doWork, doWorkLoop, goDiv]
  · simp [goDiv]

/-- Counterexample to C6 as stated: the configuration used by the program
(5ms CPU, 55ms network) with the invalid value `splits = -2` does not fail
with any `InvalidConfig` condition — the simulated request runs to completion
(`some`), performing a single CPU slice of commanded duration
`5000000/(-1) = -5000000` nanoseconds (which the busy-wait loop exits
immediately) and no network phase. No configuration validation exists in the
code. -/
theorem doWork_negative_splits_counterexample :
    doWork 5000000 55000000 (-2) = some [Phase.cpu (-5000000)] ∧
    doWork 5000000 55000000 (-2) ≠ none := by
  constructor
  · decide
  · decide

/-- C6 amended: `runBenchmark` performs no configuration validation and no
`InvalidConfig` condition exists. In particular a negative-splits workload
does not fail with `InvalidConfig`: for `splits ≤ -2` every simulated request
completes without error (one CPU slice of truncated-negative duration, no
network phase), while `splits = -1` hits the integer division
`workTime/(splits+1)` with a zero divisor and dies with a runtime
divide-by-zero panic — a different failure than `InvalidConfig`. -/
theorem doWork_negative_splits (w nt s : Int) (hs : s ≤ -2) :
    doWork w nt s = some [Phase.cpu (w.tdiv (s + 1))] ∧
    doWork w nt (-1) = none := by
  constructor
  · have h0 : s.toNat = 0 := Int.toNat_of_nonpos (by omega)
    have h1 : s + 1 ≠ 0 := by omega
    simp [doWork, doWorkLoop, goDiv, h0, h1]
  · simp [doWork, goDiv]

theorem doWork_negative_splits_witness :
    doWork 5000000 55000000 (-3) = some [Phase.cpu ((5000000 : Int).tdiv (-3 + 1))] ∧
    doWork 5000000 55000000 (-1) = none :=
  doWork_negative_splits 5000000 55000000 (-3) (by decide)

/-- C10: the slice durations use truncating integer division on
`time.Duration`. Each CPU slice is `⌊cpuTime/(s+1)⌋` (truncation equals floor
here since the durations are non-negative) and, for `s ≥ 1`, each network
slice is `⌊networkTime/s⌋`; the total commanded CPU busy time is
`(s+1)·⌊cpuTime/(s+1)⌋ ≤ cpuTime`, strictly less whenever `s+1` does not
divide `cpuTime` exactly, and likewise the total commanded network time is
`s·⌊networkTime/s⌋ ≤ networkTime`, strictly less whenever `s` does not divide
`networkTime`. -/
theorem doWork_truncating_division (w nt : Int) (s : Nat) (hw : 0 ≤ w) (hn : 0 ≤ nt) :
    doWork w nt (s : Int) = some (workPhases w nt s) ∧
    cpuTotal (workPhases w nt s) = ((s : Int) + 1) * w.tdiv ((s : Int) + 1) ∧
    w.tdiv ((s : Int) + 1) = w.fdiv ((s : Int) + 1) ∧
    cpuTotal (workPhases w nt s) ≤ w ∧
    (¬ ((s : Int) + 1 ∣ w) → cpuTotal (workPhases w nt s) < w) ∧
    (1 ≤ s →
      netTotal (workPhases w nt s) = (s : Int) * nt.tdiv (s : Int) ∧
      nt.tdiv (s : Int) = nt.fdiv (s : Int) ∧
      netTotal (workPhases w nt s) ≤ nt ∧
      (¬ ((s : Int) ∣ nt) → netTotal (workPhases w nt s) < nt)) := by
  have hs1 : (0 : Int) < (s : Int) + 1 := by positivity
  have htd : w.tdiv ((s : Int) + 1) = w / ((s : Int) + 1) :=
    Int.tdiv_eq_ediv hw (by omega)
  have hfd : w.fdiv ((s : Int) + 1) = w / ((s : Int) + 1) :=
    Int.fdiv_eq_ediv w (by omega)
  have hcpu : cpuTotal (workPhases w nt s) = ((s : Int) + 1) * w.tdiv ((s : Int) + 1) := by
    simp [workPhases, cpuTotal]
    ring
  have hdm := Int.ediv_add_emod w ((s : Int) + 1)
  have hm0 : 0 ≤ w % ((s : Int) + 1) := Int.emod_nonneg w (by omega)
  have hmlt : w % ((s : Int) + 1) < (s : Int) + 1 := Int.emod_lt_of_pos w hs1
  refine ⟨doWork_natCast w nt s, hcpu, htd.trans hfd.symm, ?_, ?_, ?_⟩
  · rw [hcpu, htd]; omega
  · intro hnd
    have : w % ((s : Int) + 1) ≠ 0 := fun h => hnd (Int.dvd_iff_emod_eq_zero.mpr h)
    rw [hcpu, htd]; omega
  · intro hs
    have hsz : (0 : Int) < (s : Int) := by exact_mod_cast hs
    have htdn : nt.tdiv (s : Int) = nt / (s : Int) := Int.tdiv_eq_ediv hn (by omega)
    have hfdn : nt.fdiv (s : Int) = nt / (s : Int) := Int.fdiv_eq_ediv nt (by omega)
    have hnet : netTotal (workPhases w nt s) = (s : Int) * nt.tdiv (s : Int) := by
      simp [workPhases, netTotal]
    have hdmn := Int.ediv_add_emod nt (s : Int)
    have hm0n : 0 ≤ nt % (s : Int) := Int.emod_nonneg nt (by omega)
    have hmltn : nt % (s : Int) < (s : Int) := Int.emod_lt_of_pos nt hsz
    refine ⟨hnet, htdn.trans hfdn.symm, ?_, ?_⟩
    · rw [hnet, htdn]; omega
    · intro hnd
      have : nt % (s : Int) ≠ 0 := fun h => hnd (Int.dvd_iff_emod_eq_zero.mpr h)
      rw [hnet, htdn]; omega

theorem doWork_truncating_division_witness :
    doWork 5 7 ((1 : Nat) : Int) = some (workPhases 5 7 1) ∧
    cpuTotal (workPhases 5 7 1) = (((1 : Nat) : Int) + 1) * (5 : Int).tdiv (((1 : Nat) : Int) + 1) ∧
    (5 : Int).tdiv (((1 : Nat) : Int) + 1) = (5 : Int).fdiv (((1 : Nat) : Int) + 1) ∧
    cpuTotal (workPhases 5 7 1) ≤ 5 ∧
    (¬ (((1 : Nat) : Int) + 1 ∣ (5 : Int)) → cpuTotal (workPhases 5 7 1) < 5) ∧
    (1 ≤ (1 : Nat) →
      netTotal (workPhases 5 7 1) = ((1 : Nat) : Int) * (7 : Int).tdiv ((1 : Nat) : Int) ∧
      (7 : Int).tdiv ((1 : Nat) : Int) = (7 : Int).fdiv ((1 : Nat) : Int) ∧
      netTotal (workPhases 5 7 1) ≤ 7 ∧
      (¬ (((1 : Nat) : Int) ∣ (7 : Int)) → netTotal (workPhases 5 7 1) < 7)) :=
  doWork_truncating_division 5 7 1 (by decide) (by decide)

/-- C7: the returned metrics satisfy exactly the spec formulas —
`throughput = iterationCount / concurrentPhaseWallDuration`,
`speedup = throughput / baselineThroughput` with
`baselineThroughput = baselineIterationCount / baselineWallDuration`, and
`cpuUtilization = throughput / theoreticalMaxThroughput * 100` with
`theoreticalMaxThroughput = 1 / cpuTime` (the code computes
`throughput * 100 / theoreticalMaxThroughput`, equal over ℚ). -/
theorem mkBenchmarkResult_metric_formulas (w nt g : Int)
    (iterations baselineIterations : Nat) (baselineDuration totalDuration : Int)
    (results : List WorkResult) :
    (mkBenchmarkResult w nt g iterations baselineIterations baselineDuration
        totalDuration results).throughputRps =
      (iterations : ℚ) / durationSeconds totalDuration ∧
    (mkBenchmarkResult w nt g iterations baselineIterations baselineDuration
        totalDuration results).speedup =
      ((iterations : ℚ) / durationSeconds totalDuration) /
        ((baselineIterations : ℚ) / durationSeconds baselineDuration) ∧
    (mkBenchmarkResult w nt g iterations baselineIterations baselineDuration
        totalDuration results).cpuUtilization =
      ((iterations : ℚ) / durationSeconds totalDuration) /
        (1 / durationSeconds w) * 100 := by
  refine ⟨rfl, rfl, ?_⟩
  show (iterations : ℚ) / durationSeconds totalDuration * 100 / (1 / durationSeconds w) = _
  ring

theorem foldl_longest_first_max (l : List WorkResult) :
    ∀ acc : WorkResult,
      (l.foldl (fun best r => if best.timeTaken < r.timeTaken then r else best) acc
          = acc ∧
        ∀ r ∈ l, r.timeTaken ≤ acc.timeTaken)
      ∨ (∃ i, ∃ hi : i < l.length,
          l.foldl (fun best r => if best.timeTaken < r.timeTaken then r else best) acc
            = l.get ⟨i, hi⟩ ∧
          acc.timeTaken < (l.get ⟨i, hi⟩).timeTaken ∧
          (∀ r ∈ l, r.timeTaken ≤ (l.get ⟨i, hi⟩).timeTaken) ∧
          ∀ j, ∀ hj : j < l.length, j < i →
            (l.get ⟨j, hj⟩).timeTaken < (l.get ⟨i, hi⟩).timeTaken) := by
  induction l with
  | nil =>
    intro acc
    left
    exact ⟨rfl, by simp⟩
  | cons r l ih =>
    intro acc
    by_cases h : acc.timeTaken < r.timeTaken
    · rcases ih r with ⟨heq, hall⟩ | ⟨i, hi, heq, hgt, hall, hfirst⟩
      · right
        refine ⟨0, by simp, ?_, ?_, ?_, ?_⟩
        · simpa [List.foldl_cons, if_pos h] using heq
        · simpa using h
        · intro x hx
          rcases List.mem_cons.mp hx with hx | hx
          · simp [hx]
          · simpa using hall x hx
        · intro j hj hj0
          omega
      · right
        refine ⟨i + 1, by simpa using Nat.succ_lt_succ hi, ?_, ?_, ?_, ?_⟩
        · simpa [List.foldl_cons, if_pos h] using heq
        · simpa using lt_trans h hgt
        · intro x hx
          rcases List.mem_cons.mp hx with hx | hx
          · simpa [hx] using le_of_lt hgt
          · simpa using hall x hx
        · intro j hj hji
          match j with
          | 0 => simpa using hgt
          | k + 1 =>
            have hk : k < l.length := by simpa using hj
            have := hfirst k hk (by omega)
            simpa using this
    · rcases ih acc with ⟨heq, hall⟩ | ⟨i, hi, heq, hgt, hall, hfirst⟩
      · left
        constructor
        · simpa [List.foldl_cons, if_neg h] using heq
        · intro x hx
          rcases List.mem_cons.mp hx with hx | hx
          · simpa [hx] using le_of_not_lt h
          · exact hall x hx
      · right
        refine ⟨i + 1, by simpa using Nat.succ_lt_succ hi, ?_, ?_, ?_, ?_⟩
        · simpa [List.foldl_cons, if_neg h] using heq
        · simpa using hgt
        · intro x hx
          rcases List.mem_cons.mp hx with hx | hx
          · have : r.timeTaken ≤ acc.timeTaken := le_of_not_lt h
            simpa [hx] using le_trans this (le_of_lt hgt)
          · simpa using hall x hx
        · intro j hj hji
          match j with
          | 0 => simpa using lt_of_le_of_lt (le_of_not_lt h) hgt
          | k + 1 =>
            have hk : k < l.length := by simpa using hj
            have := hfirst k hk (by omega)
            simpa using this

/-- C8: for a run with at least one iteration (and the real-execution fact
that every elapsed time is positive), `LongestRequest` is the trace of the
result whose elapsed time is the maximum over all collected results, ties
broken in favor of the first such result in completion order: the fold picks
an index `i` whose `timeTaken` bounds every result and strictly exceeds every
earlier result, and the assembled `BenchmarkResult.LongestRequest` is that
result's trace. -/
theorem longestRequest_is_first_max (results : List WorkResult)
    (hne : results ≠ []) (hpos : ∀ r ∈ results, 0 < r.timeTaken) :
    ∃ i, ∃ hi : i < results.length,
      collectLongest results = results.get ⟨i, hi⟩ ∧
      (∀ r ∈ results, r.timeTaken ≤ (results.get ⟨i, hi⟩).timeTaken) ∧
      (∀ j, ∀ hj : j < results.length, j < i →
        (results.get ⟨j, hj⟩).timeTaken < (results.get ⟨i, hi⟩).timeTaken) ∧
      ∀ (w nt g : Int) (iters biters : Nat) (bd td : Int),
        (mkBenchmarkResult w nt g iters biters bd td results).longestRequest =
          (results.get ⟨i, hi⟩).output := by
  rcases foldl_longest_first_max results ⟨0, ""⟩ with ⟨_, hall⟩ | ⟨i, hi, heq, _, hall, hfirst⟩
  · rcases List.exists_mem_of_ne_nil results hne with ⟨r0, hr0⟩
    have h1 := hpos r0 hr0
    have h2 := hall r0 hr0
    have h3 : (⟨0, ""⟩ : WorkResult).timeTaken = 0 := rfl
    rw [h3] at h2
    omega
  · refine ⟨i, hi, heq, hall, hfirst, ?_⟩
    intro w nt g iters biters bd td
    show (collectLongest results).output = _
    rw [show collectLongest results = results.get ⟨i, hi⟩ from heq]

theorem longestRequest_is_first_max_witness :
    ∃ i, ∃ hi : i < ([⟨5, "a"⟩, ⟨7, "b"⟩, ⟨7, "c"⟩] : List WorkResult).length,
      collectLongest [⟨5, "a"⟩, ⟨7, "b"⟩, ⟨7, "c"⟩] =
        ([⟨5, "a"⟩, ⟨7, "b"⟩, ⟨7, "c"⟩] : List WorkResult).get ⟨i, hi⟩ ∧
      (∀ r ∈ ([⟨5, "a"⟩, ⟨7, "b"⟩, ⟨7, "c"⟩] : List WorkResult),
        r.timeTaken ≤ (([⟨5, "a"⟩, ⟨7, "b"⟩, ⟨7, "c"⟩] : List WorkResult).get ⟨i, hi⟩).timeTaken) ∧
      (∀ j, ∀ hj : j < ([⟨5, "a"⟩, ⟨7, "b"⟩, ⟨7, "c"⟩] : List WorkResult).length, j < i →
        (([⟨5, "a"⟩, ⟨7, "b"⟩, ⟨7, "c"⟩] : List WorkResult).get ⟨j, hj⟩).timeTaken <
          (([⟨5, "a"⟩, ⟨7, "b"⟩, ⟨7, "c"⟩] : List WorkResult).get ⟨i, hi⟩).timeTaken) ∧
      ∀ (w nt g : Int) (iters biters : Nat) (bd td : Int),
        (mkBenchmarkResult w nt g iters biters bd td
            [⟨5, "a"⟩, ⟨7, "b"⟩, ⟨7, "c"⟩]).longestRequest =
          (([⟨5, "a"⟩, ⟨7, "b"⟩, ⟨7, "c"⟩] : List WorkResult).get ⟨i, hi⟩).output :=
  longestRequest_is_first_max [⟨5, "a"⟩, ⟨7, "b"⟩, ⟨7, "c"⟩] (by decide) (by decide)

theorem ratFloor_eq_floor (q : ℚ) : ratFloor q = ⌊q⌋ := by
  conv_rhs => rw [← Rat.num_div_den q]
  rw [Rat.floor_intCast_div_natCast]
  rfl

theorem ratCeil_eq_ceil (q : ℚ) : ratCeil q = ⌈q⌉ := by
  rw [ratCeil, ratFloor_eq_floor, Int.floor_neg, neg_neg]

/-- Counterexample to C3 as stated: on latencies `[1ms, 2ms]` at `p = 50` the
accessor returns `1`, while the linear-interpolation percentile of the spec
(rank `= 50/100 × (2−1) = 0.5`) is `1.5`; moreover at `p = 0` the accessor
returns NaN (`none`) rather than a defined numeric value, because the library
rejects `percent ≤ 0`. -/
theorem percentile_not_linear_interpolation :
    responseTimesPercentile sampleResult 50 = some 1 ∧
    specLinearPercentile sampleResult.responseTimesMs 50 = some (3 / 2) ∧
    responseTimesPercentile sampleResult 50 ≠
      specLinearPercentile sampleResult.responseTimesMs 50 ∧
    responseTimesPercentile sampleResult 0 = none := by
  have h50 : responseTimesPercentile sampleResult 50 = some 1 := by
    norm_num [responseTimesPercentile, statsPercentile, sampleResult, sortedCopy,
      ratFloor_eq_floor, statsMeanVal]
  have hlin : specLinearPercentile sampleResult.responseTimesMs 50 = some (3 / 2) := by
    have hc : (⌈(1 : ℚ) / 2⌉ : Int) = 1 := by
      rw [Int.ceil_eq_iff]
      norm_num
    norm_num [specLinearPercentile, sampleResult, sortedCopy, ratFloor_eq_floor,
      ratCeil_eq_ceil, hc]
  refine ⟨h50, hlin, ?_, ?_⟩
  · rw [h50, hlin]
    norm_num
  · norm_num [responseTimesPercentile, statsPercentile, sampleResult]

/-- Counterexample to C4 as stated: on latencies `[1ms, 2ms]`,
`Percentile(0)` is NaN (`none`), not the minimum `1`: the library returns
`BoundsErr` for `percent ≤ 0` and the accessor surfaces the accompanying NaN. -/
theorem percentile_zero_not_min :
    responseTimesPercentile sampleResult 0 = none ∧
    (1 : ℚ) ∈ sampleResult.responseTimesMs ∧
    (∀ x ∈ sampleResult.responseTimesMs, (1 : ℚ) ≤ x) ∧
    responseTimesPercentile sampleResult 0 ≠ some 1 := by
  have h0 : responseTimesPercentile sampleResult 0 = none := by
    norm_num [responseTimesPercentile, statsPercentile, sampleResult]
  refine ⟨h0, by norm_num [sampleResult], ?_, by rw [h0]; exact fun h => Option.noConfusion h⟩
  intro x hx
  rcases List.mem_pair.mp (by simpa [sampleResult] using hx) with h | h <;> rw [h] <;> norm_num

/-- Counterexample to C5 as stated: invoked on zero collected latencies, the
percentile accessor does not fail the run — `stats.Percentile` does return the
empty-input error (`InsufficientData`), but `ResponseTimesPercentile` discards
it (`val, _ :=`) and returns the NaN value to its caller, which keeps running. -/
theorem percentile_empty_returns_nan :
    (statsPercentile emptyResult.responseTimesMs 50).err = some StatsErr.emptyInput ∧
    responseTimesPercentile emptyResult 50 = none := by
  refine ⟨by norm_num [statsPercentile, emptyResult], by norm_num [responseTimesPercentile, statsPercentile, emptyResult]⟩

theorem sortedCopy_length (l : List ℚ) : (sortedCopy l).length = l.length :=
  (List.perm_insertionSort (· ≤ ·) l).length_eq

theorem sortedCopy_sorted (l : List ℚ) : (sortedCopy l).Sorted (· ≤ ·) :=
  List.sorted_insertionSort (· ≤ ·) l

theorem sortedCopy_perm (l : List ℚ) : (sortedCopy l).Perm l :=
  List.perm_insertionSort (· ≤ ·) l

theorem sorted_getD_le (c : List ℚ) (hc : c.Sorted (· ≤ ·)) (i j : Nat)
    (hij : i ≤ j) (hj : j < c.length) : c.getD i 0 ≤ c.getD j 0 := by
  have hi : i < c.length := Nat.lt_of_le_of_lt hij hj
  rw [List.getD_eq_getElem c 0 hi, List.getD_eq_getElem c 0 hj]
  rcases Nat.eq_or_lt_of_le hij with h | h
  · subst h
    exact le_refl _
  · have := @List.Sorted.rel_get_of_lt ℚ (· ≤ ·) c hc ⟨i, hi⟩ ⟨j, hj⟩
      (Fin.mk_lt_mk.mpr h)
    simpa using this

theorem statsMeanVal_pair (a b : ℚ) : statsMeanVal [a, b] = (a + b) / 2 := by
  simp [statsMeanVal]

theorem statsPercentile_unfold (l : List ℚ) (p : ℚ) (h2 : 2 ≤ l.length)
    (hp0 : 0 < p) (hp1 : p ≤ 100) :
    statsPercentile l p =
      if p / 100 * (l.length : ℚ) = (⌊p / 100 * (l.length : ℚ)⌋ : ℚ) then
        ⟨some ((sortedCopy l).getD ((⌊p / 100 * (l.length : ℚ)⌋).toNat - 1) 0),
          none⟩
      else if 1 < p / 100 * (l.length : ℚ) then
        ⟨some (statsMeanVal (((sortedCopy l).drop
          ((⌊p / 100 * (l.length : ℚ)⌋).toNat - 1)).take 2)), none⟩
      else ⟨none, some StatsErr.nanResult⟩ := by
  have hlen0 : ¬ l.length = 0 := by omega
  have hlen1 : ¬ l.length = 1 := by omega
  have hb : ¬ (p ≤ 0 ∨ 100 < p) := by
    push_neg
    exact ⟨hp0, hp1⟩
  simp only [statsPercentile, if_neg hlen0, if_neg hlen1, if_neg hb,
    sortedCopy_length, ratFloor_eq_floor]

theorem statsPercentile_out_of_bounds (l : List ℚ) (p : ℚ) (h2 : 2 ≤ l.length)
    (hb : p ≤ 0 ∨ 100 < p) : (statsPercentile l p).val = none := by
  have hlen0 : ¬ l.length = 0 := by omega
  have hlen1 : ¬ l.length = 1 := by omega
  simp only [statsPercentile, if_neg hlen0, if_neg hlen1, if_pos hb]

theorem statsPercentile_some_form (l : List ℚ) (p : ℚ) (h2 : 2 ≤ l.length)
    (hp0 : 0 < p) (hp1 : p ≤ 100)
    (hreg : p / 100 * (l.length : ℚ) = (⌊p / 100 * (l.length : ℚ)⌋ : ℚ) ∨
            1 < p / 100 * (l.length : ℚ)) :
    (statsPercentile l p).val =
      some (((sortedCopy l).getD ((⌈p / 100 * (l.length : ℚ)⌉).toNat - 1) 0 +
             (sortedCopy l).getD ((⌊p / 100 * (l.length : ℚ)⌋).toNat - 1) 0) / 2) := by
  rw [statsPercentile_unfold l p h2 hp0 hp1]
  by_cases hwhole : p / 100 * (l.length : ℚ) = (⌊p / 100 * (l.length : ℚ)⌋ : ℚ)
  · rw [if_pos hwhole]
    have hce : ⌈p / 100 * (l.length : ℚ)⌉ = ⌊p / 100 * (l.length : ℚ)⌋ := by
      rw [hwhole, Int.ceil_intCast, Int.floor_intCast]
    simp only [hce]
    exact congrArg some (by ring)
  · have hx1 : 1 < p / 100 * (l.length : ℚ) := by
      rcases hreg with h | h
      · exact absurd h hwhole
      · exact h
    rw [if_neg hwhole, if_pos hx1]
    have hn0 : (0 : ℚ) ≤ (l.length : ℚ) := by positivity
    have hp100 : p / 100 ≤ 1 := (div_le_one (by norm_num)).mpr hp1
    have hxn : p / 100 * (l.length : ℚ) ≤ (l.length : ℚ) := by
      calc p / 100 * (l.length : ℚ) ≤ 1 * (l.length : ℚ) :=
            mul_le_mul_of_nonneg_right hp100 hn0
        _ = (l.length : ℚ) := one_mul _
    have hfl : (⌊p / 100 * (l.length : ℚ)⌋ : ℚ) < p / 100 * (l.length : ℚ) :=
      lt_of_le_of_ne (Int.floor_le _) fun h => hwhole h.symm
    have h1f : 1 ≤ ⌊p / 100 * (l.length : ℚ)⌋ :=
      Int.le_floor.mpr (by exact_mod_cast le_of_lt hx1)
    have hfn : ⌊p / 100 * (l.length : ℚ)⌋ < (l.length : Int) := by
      have : (⌊p / 100 * (l.length : ℚ)⌋ : ℚ) < (l.length : ℚ) := lt_of_lt_of_le hfl hxn
      exact_mod_cast this
    have hceil : ⌈p / 100 * (l.length : ℚ)⌉ = ⌊p / 100 * (l.length : ℚ)⌋ + 1 := by
      rw [Int.ceil_eq_iff]
      constructor
      · push_cast
        simpa using hfl
      · push_cast
        exact le_of_lt (Int.lt_floor_add_one _)
    have hi1 : 1 ≤ (⌊p / 100 * (l.length : ℚ)⌋).toNat := by omega
    have hilt : (⌊p / 100 * (l.length : ℚ)⌋).toNat < (sortedCopy l).length := by
      rw [sortedCopy_length]
      omega
    have hi1lt : (⌊p / 100 * (l.length : ℚ)⌋).toNat - 1 < (sortedCopy l).length := by
      omega
    have hdrop1 : (sortedCopy l).drop ((⌊p / 100 * (l.length : ℚ)⌋).toNat - 1) =
        (sortedCopy l).getD ((⌊p / 100 * (l.length : ℚ)⌋).toNat - 1) 0 ::
          (sortedCopy l).drop ((⌊p / 100 * (l.length : ℚ)⌋).toNat) := by
      have hidx : ((⌊p / 100 * (l.length : ℚ)⌋).toNat - 1) + 1 =
          (⌊p / 100 * (l.length : ℚ)⌋).toNat := by omega
      rw [List.drop_eq_getElem_cons hi1lt, List.getD_eq_getElem _ 0 hi1lt, hidx]
    have hdrop2 : (sortedCopy l).drop ((⌊p / 100 * (l.length : ℚ)⌋).toNat) =
        (sortedCopy l).getD ((⌊p / 100 * (l.length : ℚ)⌋).toNat) 0 ::
          (sortedCopy l).drop ((⌊p / 100 * (l.length : ℚ)⌋).toNat + 1) := by
      rw [List.drop_eq_getElem_cons hilt, List.getD_eq_getElem _ 0 hilt]
    rw [hdrop1, hdrop2]
    have htake : ∀ (a b : ℚ) (rest : List ℚ), (a :: b :: rest).take 2 = [a, b] := by
      intro a b rest
      rfl
    rw [htake, statsMeanVal_pair, hceil]
    have htn : (⌊p / 100 * (l.length : ℚ)⌋ + 1).toNat - 1 =
        (⌊p / 100 * (l.length : ℚ)⌋).toNat := by omega
    rw [htn]
    exact congrArg some (by ring)

theorem statsPercentile_some_region (l : List ℚ) (p v : ℚ) (h2 : 2 ≤ l.length)
    (h : (statsPercentile l p).val = some v) :
    0 < p ∧ p ≤ 100 ∧
      (p / 100 * (l.length : ℚ) = (⌊p / 100 * (l.length : ℚ)⌋ : ℚ) ∨
       1 < p / 100 * (l.length : ℚ)) := by
  by_cases hb : p ≤ 0 ∨ 100 < p
  · rw [statsPercentile_out_of_bounds l p h2 hb] at h
    exact Option.noConfusion h
  · push_neg at hb
    refine ⟨hb.1, hb.2, ?_⟩
    by_cases hwhole : p / 100 * (l.length : ℚ) = (⌊p / 100 * (l.length : ℚ)⌋ : ℚ)
    · exact Or.inl hwhole
    · by_cases hx1 : 1 < p / 100 * (l.length : ℚ)
      · exact Or.inr hx1
      · rw [statsPercentile_unfold l p h2 hb.1 hb.2, if_neg hwhole, if_neg hx1] at h
        exact Option.noConfusion h

/-- C3 amended: the accessor does not implement the spec's linear-interpolation
percentile (rank `p/100 × (n−1)`); it implements the stats library's
mean-of-nearest-ranks method with 1-based rank `x = p/100 × n`: whenever the
result is numeric (`x` whole, or `x > 1`), it equals the average of the two
nearest ranked values `(sorted[⌈x⌉−1] + sorted[⌊x⌋−1]) / 2`; and it is not
callable over all of `[0,100]` — at `p = 0` it yields NaN (`none`). -/
theorem responseTimesPercentile_mean_of_nearest_ranks (b : BenchmarkResultL)
    (p : ℚ) (h2 : 2 ≤ b.responseTimesMs.length) (hp0 : 0 < p) (hp1 : p ≤ 100)
    (hreg : p / 100 * (b.responseTimesMs.length : ℚ) =
        (⌊p / 100 * (b.responseTimesMs.length : ℚ)⌋ : ℚ) ∨
      1 < p / 100 * (b.responseTimesMs.length : ℚ)) :
    responseTimesPercentile b p =
      some (((sortedCopy b.responseTimesMs).getD
          ((⌈p / 100 * (b.responseTimesMs.length : ℚ)⌉).toNat - 1) 0 +
        (sortedCopy b.responseTimesMs).getD
          ((⌊p / 100 * (b.responseTimesMs.length : ℚ)⌋).toNat - 1) 0) / 2) ∧
    responseTimesPercentile b 0 = none := by
  constructor
  · exact statsPercentile_some_form b.responseTimesMs p h2 hp0 hp1 hreg
  · exact statsPercentile_out_of_bounds b.responseTimesMs 0 h2 (Or.inl le_rfl)

theorem sampleIndex_gt_one :
    (1 : ℚ) < 75 / 100 * (sampleResult.responseTimesMs.length : ℚ) := by
  norm_num [sampleResult]

theorem responseTimesPercentile_mean_of_nearest_ranks_witness :
    responseTimesPercentile sampleResult 75 =
      some (((sortedCopy sampleResult.responseTimesMs).getD
          ((⌈(75 : ℚ) / 100 * (sampleResult.responseTimesMs.length : ℚ)⌉).toNat - 1) 0 +
        (sortedCopy sampleResult.responseTimesMs).getD
          ((⌊(75 : ℚ) / 100 * (sampleResult.responseTimesMs.length : ℚ)⌋).toNat - 1) 0) / 2) ∧
    responseTimesPercentile sampleResult 0 = none :=
  responseTimesPercentile_mean_of_nearest_ranks sampleResult 75 (by decide)
    (by norm_num) (by norm_num) (Or.inr sampleIndex_gt_one)

/-- C4 amended: `Percentile(100)` equals the maximum of the latencies, and the
percentile is monotonically non-decreasing across numeric results; but
`Percentile(0)` is not the minimum — for two or more latencies it yields NaN
(`none`), because the library rejects `percent ≤ 0`. -/
theorem responseTimesPercentile_max_and_monotone (b : BenchmarkResultL)
    (hne : b.responseTimesMs ≠ []) :
    (∃ m, responseTimesPercentile b 100 = some m ∧ m ∈ b.responseTimesMs ∧
      ∀ y ∈ b.responseTimesMs, y ≤ m) ∧
    (2 ≤ b.responseTimesMs.length → responseTimesPercentile b 0 = none) ∧
    (∀ p1 p2 v1 v2, p1 ≤ p2 → 2 ≤ b.responseTimesMs.length →
      responseTimesPercentile b p1 = some v1 →
      responseTimesPercentile b p2 = some v2 → v1 ≤ v2) := by
  refine ⟨?_, ?_, ?_⟩
  · by_cases h2 : 2 ≤ b.responseTimesMs.length
    · have hx : (100 : ℚ) / 100 * (b.responseTimesMs.length : ℚ) =
          (b.responseTimesMs.length : ℚ) := by norm_num
      have hxf : ⌊(100 : ℚ) / 100 * (b.responseTimesMs.length : ℚ)⌋ =
          (b.responseTimesMs.length : Int) := by rw [hx, Int.floor_natCast]
      have hxc : ⌈(100 : ℚ) / 100 * (b.responseTimesMs.length : ℚ)⌉ =
          (b.responseTimesMs.length : Int) := by rw [hx, Int.ceil_natCast]
      have hreg : (100 : ℚ) / 100 * (b.responseTimesMs.length : ℚ) =
          (⌊(100 : ℚ) / 100 * (b.responseTimesMs.length : ℚ)⌋ : ℚ) ∨
          1 < (100 : ℚ) / 100 * (b.responseTimesMs.length : ℚ) := by
        left
        rw [hxf, hx]
        push_cast
        rfl
      have hform := statsPercentile_some_form b.responseTimesMs 100 h2
        (by norm_num) le_rfl hreg
      rw [hxf, hxc] at hform
      have htn : ((b.responseTimesMs.length : Int)).toNat =
          b.responseTimesMs.length := by omega
      rw [htn] at hform
      have hlt : b.responseTimesMs.length - 1 < (sortedCopy b.responseTimesMs).length := by
        rw [sortedCopy_length]
        omega
      refine ⟨(sortedCopy b.responseTimesMs).getD (b.responseTimesMs.length - 1) 0,
        ?_, ?_, ?_⟩
      · show (statsPercentile b.responseTimesMs 100).val = _
        rw [hform]
        exact congrArg some (by ring)
      · rw [List.getD_eq_getElem _ 0 hlt]
        exact ((sortedCopy_perm b.responseTimesMs).mem_iff).mp (List.getElem_mem hlt)
      · intro y hy
        have hyc : y ∈ sortedCopy b.responseTimesMs :=
          ((sortedCopy_perm b.responseTimesMs).mem_iff).mpr hy
        obtain ⟨k, hk⟩ := List.mem_iff_get.mp hyc
        have hyk : y = (sortedCopy b.responseTimesMs).getD (k : Nat) 0 := by
          rw [List.getD_eq_getElem _ 0 k.isLt, ← hk]
          simp [List.get_eq_getElem]
        rw [hyk]
        have hk2 : (k : Nat) ≤ b.responseTimesMs.length - 1 := by
          have h3 := k.isLt
          have h4 := sortedCopy_length b.responseTimesMs
          omega
        exact sorted_getD_le _ (sortedCopy_sorted b.responseTimesMs) _ _ hk2 hlt
    · have h1 : b.responseTimesMs.length = 1 := by
        have := List.length_pos.mpr hne
        omega
      obtain ⟨a, ha⟩ := List.length_eq_one.mp h1
      refine ⟨a, ?_, ?_, ?_⟩
      · show (statsPercentile b.responseTimesMs 100).val = _
        rw [ha]
        simp [statsPercentile]
      · rw [ha]
        exact List.mem_singleton_self a
      · intro y hy
        rw [ha] at hy
        rw [List.mem_singleton.mp hy]
  · intro h2
    exact statsPercentile_out_of_bounds b.responseTimesMs 0 h2 (Or.inl le_rfl)
  · intro p1 p2 v1 v2 hple h2 hs1 hs2
    obtain ⟨hp10, hp11, hreg1⟩ :=
      statsPercentile_some_region b.responseTimesMs p1 v1 h2 hs1
    obtain ⟨hp20, hp21, hreg2⟩ :=
      statsPercentile_some_region b.responseTimesMs p2 v2 h2 hs2
    have hf1 := statsPercentile_some_form b.responseTimesMs p1 h2 hp10 hp11 hreg1
    have hf2 := statsPercentile_some_form b.responseTimesMs p2 h2 hp20 hp21 hreg2
    have hv1 := Option.some.inj (hs1.symm.trans hf1)
    have hv2 := Option.some.inj (hs2.symm.trans hf2)
    rw [hv1, hv2]
    have hn0 : (0 : ℚ) < (b.responseTimesMs.length : ℚ) := by
      have : (0 : ℚ) ≤ (b.responseTimesMs.length : ℚ) := by positivity
      rcases lt_or_eq_of_le this with h | h
      · exact h
      · exfalso
        have : b.responseTimesMs.length = 0 := by exact_mod_cast h.symm
        omega
    have hx12 : p1 / 100 * (b.responseTimesMs.length : ℚ) ≤
        p2 / 100 * (b.responseTimesMs.length : ℚ) := by gcongr
    have hc12 : ⌈p1 / 100 * (b.responseTimesMs.length : ℚ)⌉ ≤
        ⌈p2 / 100 * (b.responseTimesMs.length : ℚ)⌉ := Int.ceil_le_ceil hx12
    have hf12 : ⌊p1 / 100 * (b.responseTimesMs.length : ℚ)⌋ ≤
        ⌊p2 / 100 * (b.responseTimesMs.length : ℚ)⌋ := Int.floor_le_floor hx12
    have hp100 : p2 / 100 ≤ 1 := (div_le_one (by norm_num)).mpr hp21
    have hxn2 : p2 / 100 * (b.responseTimesMs.length : ℚ) ≤
        (b.responseTimesMs.length : ℚ) := by
      calc p2 / 100 * (b.responseTimesMs.length : ℚ) ≤
            1 * (b.responseTimesMs.length : ℚ) :=
          mul_le_mul_of_nonneg_right hp100 (le_of_lt hn0)
        _ = (b.responseTimesMs.length : ℚ) := one_mul _
    have hceil2 : ⌈p2 / 100 * (b.responseTimesMs.length : ℚ)⌉ ≤
        (b.responseTimesMs.length : Int) :=
      Int.ceil_le.mpr (by exact_mod_cast hxn2)
    have hflceil2 : ⌊p2 / 100 * (b.responseTimesMs.length : ℚ)⌋ ≤
        ⌈p2 / 100 * (b.responseTimesMs.length : ℚ)⌉ := Int.floor_le_ceil _
    have hA2lt : (⌈p2 / 100 * (b.responseTimesMs.length : ℚ)⌉).toNat - 1 <
        (sortedCopy b.responseTimesMs).length := by
      rw [sortedCopy_length]
      omega
    have hB2lt : (⌊p2 / 100 * (b.responseTimesMs.length : ℚ)⌋).toNat - 1 <
        (sortedCopy b.responseTimesMs).length := by
      rw [sortedCopy_length]
      omega
    have hAle := sorted_getD_le _ (sortedCopy_sorted b.responseTimesMs)
      ((⌈p1 / 100 * (b.responseTimesMs.length : ℚ)⌉).toNat - 1)
      ((⌈p2 / 100 * (b.responseTimesMs.length : ℚ)⌉).toNat - 1)
      (by omega) hA2lt
    have hBle := sorted_getD_le _ (sortedCopy_sorted b.responseTimesMs)
      ((⌊p1 / 100 * (b.responseTimesMs.length : ℚ)⌋).toNat - 1)
      ((⌊p2 / 100 * (b.responseTimesMs.length : ℚ)⌋).toNat - 1)
      (by omega) hB2lt
    linarith

theorem responseTimesPercentile_max_and_monotone_witness :
    (∃ m, responseTimesPercentile sampleResult 100 = some m ∧
      m ∈ sampleResult.responseTimesMs ∧
      ∀ y ∈ sampleResult.responseTimesMs, y ≤ m) ∧
    (2 ≤ sampleResult.responseTimesMs.length →
      responseTimesPercentile sampleResult 0 = none) ∧
    (∀ p1 p2 v1 v2, p1 ≤ p2 → 2 ≤ sampleResult.responseTimesMs.length →
      responseTimesPercentile sampleResult p1 = some v1 →
      responseTimesPercentile sampleResult p2 = some v2 → v1 ≤ v2) :=
  responseTimesPercentile_max_and_monotone sampleResult (by decide)

/-- C5 amended: called with zero collected latencies, the underlying
`stats.Percentile` does return the empty-input error (`InsufficientData`), but
`ResponseTimesPercentile` discards the error (`val, _ :=`) and returns the
accompanying NaN float to its caller for every `p`; nothing is fatal to the
run, which proceeds to print/plot the NaN value. -/
theorem percentile_on_empty_not_fatal (b : BenchmarkResultL)
    (h : b.responseTimesMs = []) (p : ℚ) :
    (statsPercentile b.responseTimesMs p).err = some StatsErr.emptyInput ∧
    responseTimesPercentile b p = none := by
  constructor
  · rw [h]
    simp [statsPercentile]
  · show (statsPercentile b.responseTimesMs p).val = none
    rw [h]
    simp [statsPercentile]

theorem percentile_on_empty_not_fatal_witness :
    (statsPercentile emptyResult.responseTimesMs 99).err = some StatsErr.emptyInput ∧
    responseTimesPercentile emptyResult 99 = none :=
  percentile_on_empty_not_fatal emptyResult rfl 99

theorem limiterRun_le (limit : Nat) (events : List LimiterEvent) :
    ∀ s s', s ≤ limit → limiterRun limit events s = some s' → s' ≤ limit := by
  induction events with
  | nil =>
    intro s s' hs h
    simp [limiterRun] at h
    omega
  | cons e es ih =>
    intro s s' hs h
    cases e with
    | acquire =>
      by_cases hlt : s < limit
      · simp only [limiterRun, limiterStep, if_pos hlt, Option.some_bind] at h
        exact ih (s + 1) s' (by omega) h
      · simp [limiterRun, limiterStep, if_neg hlt] at h
    | release =>
      by_cases hpos : 0 < s
      · simp only [limiterRun, limiterStep, if_pos hpos, Option.some_bind] at h
        exact ih (s - 1) s' (by omega) h
      · simp [limiterRun, limiterStep, if_neg hpos] at h

/-- C1: for every sequence of completed acquire/release events under a
concurrency limit `L ≥ 1`, the number of outstanding permits never exceeds
`L`: starting from zero outstanding permits, every state a run of events can
reach is at most `L`. Since every prefix of an event sequence is itself an
event sequence, the bound holds at every point in time of a benchmark run. -/
theorem limiter_outstanding_le_limit (limit : Nat) (hL : 1 ≤ limit)
    (events : List LimiterEvent) (s' : Nat)
    (h : limiterRun limit events 0 = some s') : s' ≤ limit :=
  limiterRun_le limit events 0 s' (Nat.zero_le limit) h

theorem limiter_outstanding_le_limit_witness :
    (1 ≤ 1 ∧
      limiterRun 1 [LimiterEvent.acquire, LimiterEvent.release,
        LimiterEvent.acquire] 0 = some 1) ∧
    1 ≤ 1 :=
  ⟨⟨le_rfl, by decide⟩,
    limiter_outstanding_le_limit 1 le_rfl
      [LimiterEvent.acquire, LimiterEvent.release, LimiterEvent.acquire] 1
      (by decide)⟩
